import Mathlib

/-!
# Verification of the `event_dispatcher` transport adapters

Shallow embedding of the two backend transport adapters of the
`event_dispatcher` repository:

* `src/dispatcher/kombu_dispatcher.py`  — the blocking adapter
  (`KombuDispatcher`): exchange/queue construction, the lazily created
  outbound channel pool, `_publish`, and the `_listen` consume loop;
* `src/dispatcher/async_redis_dispatcher.py` — the suspension-based adapter
  (`AsyncRedisDispatcher`): `initialize`, `_publish`, `_listen` and
  `_parse_payload`, together with a model of the `pickle` payload codec at
  its interface boundary.

Python methods are embedded as pure Lean functions; instance attributes are
carried in explicit state records, and a method that in Python mutates
`self` returns the new state.  An exception that propagates out of a method
is an `Except.error`; statements that Python would skip because an earlier
statement raised are correspondingly not executed in the embedding.  Option
dictionaries are association lists with Python `dict` semantics (unique
keys; `pop` removes the key, `{**d}` copies).
-/

namespace EventDispatcher

/-- A value stored in one of the option dictionaries passed to
`KombuDispatcher` (`exchange_options` / `queue_options`).  The source reads
string-valued entries (`"name"`), string-or-list-of-strings entries
(`"extra_routing_keys"`) and boolean entries (`"durable"`), so those are the
value shapes modelled. -/
inductive OptVal where
  | str (s : String)
  | strs (l : List String)
  | bool (b : Bool)
  deriving DecidableEq, Repr

/-- A Python `dict` with string keys, as an association list. -/
abbrev PyDict := List (String × OptVal)

/-- Python `d[k]` lookup: first binding of the key wins (a Python dict has at most
one binding per key). -/
def dictLookup (d : PyDict) (k : String) : Option OptVal :=
  match d with
  | [] => none
  | (k', v) :: rest => if k' = k then some v else dictLookup rest k

/-- Remove every binding of key `k` (a Python dict holds at most one). -/
def dictErase (d : PyDict) (k : String) : PyDict :=
  d.filter (fun kv => kv.1 ≠ k)

/-- Python `d.pop(k, default)`: returns the stored value (or the default when
the key is absent) together with the dictionary after removal of the key. -/
def dictPop (d : PyDict) (k : String) (dflt : OptVal) : OptVal × PyDict :=
  match dictLookup d k with
  | some v => (v, dictErase d k)
  | none => (dflt, d)

/-- Python `d[k] = v`. -/
def dictSet (d : PyDict) (k : String) (v : OptVal) : PyDict :=
  dictErase d k ++ [(k, v)]

/-- Python `d1.update(d2)`: set each binding of `d2` in `d1`. -/
def dictUpdate (d1 d2 : PyDict) : PyDict :=
  d2.foldl (fun acc kv => dictSet acc kv.1 kv.2) d1

/-- Python `{**d}`: a shallow copy.  The copy has the same contents; that the
copy is a *different* object from the stored attribute is represented by the
state-passing discipline (methods return the stored dictionaries they end
with, and pops below are applied to the copy only). -/
def dictCopy (d : PyDict) : PyDict := d

/-- The per-instance configuration of a `KombuDispatcher`, as set by
`__init__`: the namespace and the two option dictionaries.  (`namespace` is a
Lean keyword, hence the field name `nspace`.) -/
structure KombuCfg where
  nspace : String
  exchange_options : PyDict
  queue_options : PyDict
  deriving DecidableEq, Repr

/-- A `kombu.Exchange(name, **options)` value, at the interface boundary:
the positional name and the keyword options it was constructed with. -/
structure KExchange where
  name : OptVal
  options : PyDict
  deriving DecidableEq, Repr

/-- A `kombu.Queue(name=..., bindings=[...], **options)` value: each binding
pairs the exchange with its routing key. -/
structure KQueue where
  name : OptVal
  bindings : List (KExchange × OptVal)
  options : PyDict
  deriving DecidableEq, Repr

/-- Embedding of `KombuDispatcher._exchange`: starts from `{"durable": False}`, updates
with a copy of `self.exchange_options`, pops `"name"` (default
`"dispatcher"`) and builds the exchange from the rest.  The returned
configuration is the dispatcher state after the call (the source pops only
from the local copy, so it is unchanged). -/
def kombuExchange (cfg : KombuCfg) : KExchange × KombuCfg :=
  let options0 : PyDict := [("durable", OptVal.bool false)]
  let options1 := dictUpdate options0 (dictCopy cfg.exchange_options)
  let np := dictPop options1 "name" (OptVal.str "dispatcher")
  ({ name := np.1, options := np.2 }, cfg)

/-- Embedding of `routing_keys += extra_routing_keys` after the
`isinstance(extra_routing_keys, str)` normalisation: a single string becomes
a one-element list, a list of strings is taken as is, and any other value
makes the `+=` raise a `TypeError` (`none`). -/
def extraAsList : OptVal → Option (List OptVal)
  | OptVal.str s => some [OptVal.str s]
  | OptVal.strs l => some (l.map OptVal.str)
  | OptVal.bool _ => none

/-- Embedding of `KombuDispatcher._queue`: copies `self.queue_options`, pops `"name"`
(default: the namespace), seeds the routing keys with the queue name, pops
`"extra_routing_keys"` (default `[]`, a single string treated as a
one-element list), appends them, appends the namespace when the queue name
differs from it, and builds the queue with one binding per routing key on
`self._exchange()`.  `Except.error` is the propagated `TypeError` of an
ill-typed `extra_routing_keys`; on success the returned configuration is the
dispatcher state after the call. -/
def kombuQueue (cfg : KombuCfg) : Except Unit (KQueue × KombuCfg) :=
  let options0 := dictCopy cfg.queue_options
  let np := dictPop options0 "name" (OptVal.str cfg.nspace)
  let name := np.1
  let options1 := np.2
  let routing0 : List OptVal := [name]
  let ep := dictPop options1 "extra_routing_keys" (OptVal.strs [])
  let options2 := ep.2
  match extraAsList ep.1 with
  | none => Except.error ()
  | some extras =>
    let routing1 := routing0 ++ extras
    let routing2 :=
      if name = OptVal.str cfg.nspace then routing1
      else routing1 ++ [OptVal.str cfg.nspace]
    Except.ok
      ({ name := name
       , bindings := routing2.map (fun key => ((kombuExchange cfg).1, key))
       , options := options2 }, cfg)

/-- A `kombu.connection.ChannelPool`, at the interface boundary: its
capacity (`limit`). -/
structure ChannelPool where
  limit : Nat
  deriving DecidableEq, Repr

/-- The mutable per-instance state touched by `_channel_pool` and
`_publish`: the lazily created pool (`self.__channel_pool`, `None` until
first use) and the number of channels currently acquired from the pool and
not yet released. -/
structure KombuState where
  channelPool : Option ChannelPool
  channelsOut : Nat
  deriving DecidableEq, Repr

/-- State set up by `KombuDispatcher.__init__`: `self.__channel_pool = None`
and no channel held. -/
def initKombuState : KombuState :=
  { channelPool := none, channelsOut := 0 }

/-- The `_channel_pool` property: when `self.__channel_pool` is unset,
creates a `ChannelPool` with `limit = pool_size = 10` and stores it;
otherwise returns the stored pool unchanged. -/
def channelPoolGet (s : KombuState) : ChannelPool × KombuState :=
  match s.channelPool with
  | some pool => (pool, s)
  | none =>
    let pool : ChannelPool := { limit := 10 }
    (pool, { s with channelPool := some pool })

/-- Embedding of `producer.publish(...)` at the interface boundary: the parameter says
whether this call raises. -/
def producerPublish (raises : Bool) : Except String Unit :=
  if raises then Except.error "publish raised" else Except.ok ()

/-- Embedding of `KombuDispatcher._publish`: `channel = self._channel_pool.acquire()`
(one more channel out of the pool), then
`with kombu.Producer(channel, ...): producer.publish(...)`, then
`channel.release()`.  The `with` block re-raises an exception from
`producer.publish` after closing the producer, and the `channel.release()`
statement that follows the block is then never executed — the embedding
reaches the `channelsOut - 1` release only on the non-raising branch. -/
def kombuPublish (raises : Bool) (s : KombuState) :
    Except String Unit × KombuState :=
  let ps := channelPoolGet s
  let s1 : KombuState := { ps.2 with channelsOut := ps.2.channelsOut + 1 }
  match producerPublish raises with
  | Except.error e => (Except.error e, s1)
  | Except.ok _ => (Except.ok (), { s1 with channelsOut := s1.channelsOut - 1 })

/-- One event observed by the consume loop of `KombuDispatcher._listen` at
the `queue.get(block=True)` call site: either a message arrives (with its
raw payload bytes) or the read raises. -/
inductive KEvent where
  | msg (payload : List Nat)
  | err
  deriving DecidableEq, Repr

/-- Observable actions of the `_listen` generator: acknowledging a message
(`message.ack()`), yielding its raw payload (`yield message.payload`), and
logging a read error (`self.logger.exception(...)`). -/
inductive KAction where
  | ack (payload : List Nat)
  | yieldPayload (payload : List Nat)
  | logErr
  deriving DecidableEq, Repr

/-- How a (finite prefix of a) run of the `_listen` generator ends:
`stopped k` when the `while self._running.is_set()` check number `k` found
the flag cleared and the generator returned, or `pending` when the supplied
event trace ran out with the generator still blocked inside `queue.get`. -/
inductive ListenResult where
  | stopped (check : Nat)
  | pending
  deriving DecidableEq, Repr

/-- The loop body of `KombuDispatcher._listen`, driven by the trace `evs` of
read outcomes and by `flag`, the value of `self._running.is_set()` at each
outer check.  `phase = true` is the top of the outer
`while self._running.is_set()` loop (check number `k`); `phase = false` is
the inner `while True` loop, where each arriving message is acknowledged and
its payload yielded, and an exception from the read is caught, logged, and
control returns to the outer check. -/
def listenGo (flag : Nat → Bool) :
    Bool → Nat → List KEvent → List KAction × ListenResult
  | true, k, evs =>
    if flag k then listenGo flag false k evs
    else ([], ListenResult.stopped k)
  | false, _, [] => ([], ListenResult.pending)
  | false, k, KEvent.msg p :: rest =>
    let r := listenGo flag false k rest
    (KAction.ack p :: KAction.yieldPayload p :: r.1, r.2)
  | false, k, KEvent.err :: rest =>
    let r := listenGo flag true (k + 1) rest
    (KAction.logErr :: r.1, r.2)
termination_by phase _ evs => (evs.length, if phase then 1 else 0)

/-- Embedding of `KombuDispatcher._listen` as a whole: the generator starts at the outer
running-state check number `0`. -/
def kombuListen (flag : Nat → Bool) (evs : List KEvent) :
    List KAction × ListenResult :=
  listenGo flag true 0 evs

/-- Checks, over an action trace of `_listen`, that every yielded payload is
immediately preceded by the acknowledgement of the same message — i.e. that
the ack strictly precedes the hand-off of the payload to the consumer. -/
def ackPrecedesYield : List KAction → Bool
  | [] => true
  | KAction.ack p :: KAction.yieldPayload q :: rest =>
    decide (p = q) && ackPrecedesYield rest
  | KAction.yieldPayload _ :: _ => false
  | KAction.ack _ :: rest => ackPrecedesYield rest
  | KAction.logErr :: rest => ackPrecedesYield rest

/-- A Python value of the shapes the dispatcher serialises with `pickle`:
`None`, booleans, integers, strings, and arbitrarily nested lists and
(string-keyed) dictionaries. -/
inductive PyVal where
  | pyNone
  | pyBool (b : Bool)
  | pyInt (n : Int)
  | pyStr (s : String)
  | pyList (l : List PyVal)
  | pyDict (entries : List (String × PyVal))
  deriving Repr

/-- One token of the serialised byte stream produced by the `pickle` codec
model: tagged scalars, length-prefixed containers, and dictionary keys. -/
inductive Tok where
  | tNone
  | tBool (b : Bool)
  | tInt (n : Int)
  | tStr (s : String)
  | tList (n : Nat)
  | tDict (n : Nat)
  | tKey (s : String)
  deriving DecidableEq, Repr

mutual

/-- The encoding direction of the `pickle` codec, modelled at its interface
boundary (the source delegates to the `pickle` library; the spec requires
only that decoding invert encoding): scalars become one tagged token,
containers a length-prefixed token run. -/
def encodePy : PyVal → List Tok
  | PyVal.pyNone => [Tok.tNone]
  | PyVal.pyBool b => [Tok.tBool b]
  | PyVal.pyInt n => [Tok.tInt n]
  | PyVal.pyStr s => [Tok.tStr s]
  | PyVal.pyList l => Tok.tList l.length :: encodeItems l
  | PyVal.pyDict es => Tok.tDict es.length :: encodeEntries es

/-- Encode the elements of a list, in order. -/
def encodeItems : List PyVal → List Tok
  | [] => []
  | v :: vs => encodePy v ++ encodeItems vs

/-- Encode the entries of a dictionary, each as a key token followed by the
encoded value. -/
def encodeEntries : List (String × PyVal) → List Tok
  | [] => []
  | (k, v) :: es => Tok.tKey k :: (encodePy v ++ encodeEntries es)

end

mutual

/-- Nesting depth of a value; the decoder needs this much fuel. -/
def depthPy : PyVal → Nat
  | PyVal.pyList l => depthItems l + 1
  | PyVal.pyDict es => depthEntries es + 1
  | _ => 1

/-- Largest depth among the elements of a list. -/
def depthItems : List PyVal → Nat
  | [] => 0
  | v :: vs => max (depthPy v) (depthItems vs)

/-- Largest depth among the values of a dictionary. -/
def depthEntries : List (String × PyVal) → Nat
  | [] => 0
  | (_, v) :: es => max (depthPy v) (depthEntries es)

end

mutual

/-- The decoding direction of the `pickle` codec model: parse one value off
the front of the token stream, returning it with the unconsumed tail.  The
fuel bounds the container nesting depth; `none` is a decode failure
(corrupted or foreign-format input). -/
def decodeTok : Nat → List Tok → Option (PyVal × List Tok)
  | 0, _ => none
  | _ + 1, [] => none
  | _ + 1, Tok.tNone :: r => some (PyVal.pyNone, r)
  | _ + 1, Tok.tBool b :: r => some (PyVal.pyBool b, r)
  | _ + 1, Tok.tInt n :: r => some (PyVal.pyInt n, r)
  | _ + 1, Tok.tStr s :: r => some (PyVal.pyStr s, r)
  | fuel + 1, Tok.tList n :: r =>
    match decodeItems fuel n r with
    | some (vs, r') => some (PyVal.pyList vs, r')
    | none => none
  | fuel + 1, Tok.tDict n :: r =>
    match decodeEntries fuel n r with
    | some (es, r') => some (PyVal.pyDict es, r')
    | none => none
  | _ + 1, Tok.tKey _ :: _ => none

/-- Parse `n` consecutive values. -/
def decodeItems : Nat → Nat → List Tok → Option (List PyVal × List Tok)
  | _, 0, r => some ([], r)
  | fuel, n + 1, r =>
    match decodeTok fuel r with
    | some (v, r') =>
      match decodeItems fuel n r' with
      | some (vs, r'') => some (v :: vs, r'')
      | none => none
    | none => none

/-- Parse `n` consecutive key/value entries. -/
def decodeEntries : Nat → Nat → List Tok → Option (List (String × PyVal) × List Tok)
  | _, 0, r => some ([], r)
  | fuel, n + 1, Tok.tKey k :: r =>
    match decodeTok fuel r with
    | some (v, r') =>
      match decodeEntries fuel n r' with
      | some (es, r'') => some ((k, v) :: es, r'')
      | none => none
    | none => none
  | _, _ + 1, _ => none

end

/-- Embedding of `pickle.dumps`, at the codec's interface boundary: the encoding step of
`AsyncRedisDispatcher._publish` (`message = pickle.dumps(payload)`). -/
def pickleDumps (v : PyVal) : List Tok := encodePy v

/-- Embedding of `pickle.loads`: parse the leading value of the stream (the stream's
length bounds any nesting depth, so it is enough fuel for any stream that
decodes at all); `none` is the decode failure on foreign input. -/
def pickleLoads (bs : List Tok) : Option PyVal :=
  match decodeTok (bs.length + 1) bs with
  | some (v, _) => some v
  | none => none

/-- One message delivered by the Redis pub/sub subscription: the metadata
fields of the broker's message dictionary (`type`, `pattern`, `channel`)
together with the raw payload bytes under the `data` key. -/
structure RedisMessage where
  mtype : String
  pattern : Option String
  channel : String
  data : List Tok
  deriving DecidableEq, Repr

/-- Embedding of `AsyncRedisDispatcher._parse_payload`: reads the `data` field of the
message and unpickles it; the metadata fields are not consulted. -/
def parsePayload (payload : RedisMessage) : Option PyVal :=
  pickleLoads payload.data

/-- The Redis broker at the interface boundary of `redis.publish`: whether
the connection is live, and how many subscribers each channel currently
has. -/
structure RedisBroker where
  connected : Bool
  subscribers : String → Nat

/-- Embedding of `redis.publish(channel, message)`: on a live connection, replies with
the number of subscribers that received the message (`0` when nobody is
listening); on a dead connection the `await` raises. -/
def redisPublish (b : RedisBroker) (channel : String) (_message : List Tok) :
    Except String Nat :=
  if b.connected then Except.ok (b.subscribers channel)
  else Except.error "connection error"

/-- Embedding of `AsyncRedisDispatcher._publish`: pickles the payload and forwards the
broker's reply.  The second component is the encoded `message` local, so
that theorems can refer to the bytes the encoding step produced. -/
def asyncRedisPublish (b : RedisBroker) (nspace : String) (payload : PyVal) :
    Except String Nat × List Tok :=
  let message := pickleDumps payload
  (redisPublish b nspace message, message)

/-- Outcome of the connection attempt made by
`AsyncRedisDispatcher.initialize` (`aioredis.Redis.from_url` +
`redis.pubsub(...)`): success, or a raised `RedisError`. -/
inductive ConnectOutcome where
  | ok
  | redisErr (msg : String)
  deriving DecidableEq, Repr

/-- Observable actions of `AsyncRedisDispatcher.initialize`: logging the
connection error, scheduling a unit of work on the event loop
(`loop.create_task(...)`, deferred — `initialize` returns without running
it), or running an event trigger synchronously (no statement of the source
maps to this action; it exists so that its absence is expressible). -/
inductive InitAction where
  | logConnError
  | scheduleTask (event : String)
  | runNow (event : String)
  deriving DecidableEq, Repr

/-- Embedding of `AsyncRedisDispatcher.initialize`: the `try` block opens the client and
subscription handle; on a `RedisError` the `except` arm logs and the `else`
arm is skipped; on success the `else` arm schedules
`self._trigger_event("connect")` as a task on the event loop. -/
def asyncInitialize : ConnectOutcome → List InitAction
  | ConnectOutcome.redisErr _ => [InitAction.logConnError]
  | ConnectOutcome.ok => [InitAction.scheduleTask "connect"]

/-- The pub/sub handle at its interface boundary: the channels subscribed so
far and the stream of messages the broker will deliver on them. -/
structure PubSub where
  channels : List String
  inbound : List RedisMessage
  deriving DecidableEq, Repr

/-- Embedding of `pubsub.subscribe(channel)`. -/
def pubsubSubscribe (ps : PubSub) (ch : String) : PubSub :=
  { ps with channels := ps.channels ++ [ch] }

/-- Embedding of `pubsub.listen()`: the stream of messages delivered on the subscribed
channels, in arrival order. -/
def pubsubListen (ps : PubSub) : List RedisMessage := ps.inbound

/-- Observable actions of `AsyncRedisDispatcher._listen`: subscribing to a
channel, and yielding one inbound message to the consumer. -/
inductive RListenAction where
  | subscribe (channel : String)
  | yieldMsg (m : RedisMessage)
  deriving DecidableEq, Repr

/-- Embedding of `AsyncRedisDispatcher._listen`: subscribes the pub/sub handle to the
channel named after the dispatcher's namespace, then iterates the listen
stream, yielding each message as it arrives.  Returns the updated pub/sub
handle and the ordered action trace of the generator. -/
def asyncListen (nspace : String) (ps : PubSub) : PubSub × List RListenAction :=
  let ps1 := pubsubSubscribe ps nspace
  (ps1, RListenAction.subscribe nspace :: (pubsubListen ps1).map RListenAction.yieldMsg)

/-! ## Codec round-trip lemmas -/

mutual

theorem decodeTok_encodePy (v : PyVal) (rest : List Tok) (fuel : Nat)
    (h : depthPy v ≤ fuel) :
    decodeTok fuel (encodePy v ++ rest) = some (v, rest) := by
  cases v with
  | pyNone =>
    cases fuel with
    | zero => simp [depthPy] at h
    | succ f => simp [encodePy, decodeTok]
  | pyBool b =>
    cases fuel with
    | zero => simp [depthPy] at h
    | succ f => simp [encodePy, decodeTok]
  | pyInt n =>
    cases fuel with
    | zero => simp [depthPy] at h
    | succ f => simp [encodePy, decodeTok]
  | pyStr s =>
    cases fuel with
    | zero => simp [depthPy] at h
    | succ f => simp [encodePy, decodeTok]
  | pyList l =>
    cases fuel with
    | zero => simp [depthPy] at h
    | succ f =>
      have h' : depthItems l ≤ f := by
        have := h; simp [depthPy] at this; omega
      have hl := decodeItems_encodeItems l rest f h'
      simp [encodePy, decodeTok, hl]
  | pyDict es =>
    cases fuel with
    | zero => simp [depthPy] at h
    | succ f =>
      have h' : depthEntries es ≤ f := by
        have := h; simp [depthPy] at this; omega
      have he := decodeEntries_encodeEntries es rest f h'
      simp [encodePy, decodeTok, he]

theorem decodeItems_encodeItems (l : List PyVal) (rest : List Tok) (fuel : Nat)
    (h : depthItems l ≤ fuel) :
    decodeItems fuel l.length (encodeItems l ++ rest) = some (l, rest) := by
  cases l with
  | nil => simp [encodeItems, decodeItems]
  | cons v vs =>
    have hv : depthPy v ≤ fuel := by
      have := h; simp [depthItems] at this; omega
    have hvs : depthItems vs ≤ fuel := by
      have := h; simp [depthItems] at this; omega
    have h1 := decodeTok_encodePy v (encodeItems vs ++ rest) fuel hv
    have h2 := decodeItems_encodeItems vs rest fuel hvs
    simp [encodeItems, decodeItems, List.append_assoc, h1, h2]

theorem decodeEntries_encodeEntries (es : List (String × PyVal)) (rest : List Tok)
    (fuel : Nat) (h : depthEntries es ≤ fuel) :
    decodeEntries fuel es.length (encodeEntries es ++ rest) = some (es, rest) := by
  cases es with
  | nil => simp [encodeEntries, decodeEntries]
  | cons kv es' =>
    obtain ⟨k, v⟩ := kv
    have hv : depthPy v ≤ fuel := by
      have := h; simp [depthEntries] at this; omega
    have hes : depthEntries es' ≤ fuel := by
      have := h; simp [depthEntries] at this; omega
    have h1 := decodeTok_encodePy v (encodeEntries es' ++ rest) fuel hv
    have h2 := decodeEntries_encodeEntries es' rest fuel hes
    simp [encodeEntries, decodeEntries, List.append_assoc, h1, h2]

end

mutual

theorem depthPy_le_encLen (v : PyVal) : depthPy v ≤ (encodePy v).length := by
  cases v with
  | pyNone => simp [depthPy, encodePy]
  | pyBool b => simp [depthPy, encodePy]
  | pyInt n => simp [depthPy, encodePy]
  | pyStr s => simp [depthPy, encodePy]
  | pyList l =>
    have := depthItems_le_encLen l
    simp [depthPy, encodePy]; omega
  | pyDict es =>
    have := depthEntries_le_encLen es
    simp [depthPy, encodePy]; omega

theorem depthItems_le_encLen (l : List PyVal) :
    depthItems l ≤ (encodeItems l).length := by
  cases l with
  | nil => simp [depthItems, encodeItems]
  | cons v vs =>
    have h1 := depthPy_le_encLen v
    have h2 := depthItems_le_encLen vs
    simp [depthItems, encodeItems]; omega

theorem depthEntries_le_encLen (es : List (String × PyVal)) :
    depthEntries es ≤ (encodeEntries es).length := by
  cases es with
  | nil => simp [depthEntries, encodeEntries]
  | cons kv es' =>
    have h1 := depthPy_le_encLen kv.2
    have h2 := depthEntries_le_encLen es'
    cases kv with
    | mk k v => simp [depthEntries, encodeEntries] at h1 h2 ⊢; omega

end

/-- The codec round-trip at the `pickle` interface: unpickling the pickled
bytes of any serialisable value recovers the value. -/
theorem pickleLoads_pickleDumps (v : PyVal) :
    pickleLoads (pickleDumps v) = some v := by
  unfold pickleLoads pickleDumps
  have hd : depthPy v ≤ (encodePy v).length + 1 :=
    le_trans (depthPy_le_encLen v) (Nat.le_succ _)
  have h := decodeTok_encodePy v [] ((encodePy v).length + 1) hd
  rw [List.append_nil] at h
  rw [h]

/-! ## Claim theorems: the suspension-based adapter -/

/-- C3: decoding the encoded frame recovers the payload exactly:
`_parse_payload` applied to a broker message whose `data` field holds the
bytes produced by the encoding step of `_publish` returns the original
payload, for every serialisable payload (nested containers and `None`
included) and for arbitrary metadata fields — only the `data` field is
decoded. -/
theorem parsePayload_publish_roundtrip (p : PyVal) (b : RedisBroker)
    (nspace mtype channel : String) (pat : Option String) :
    parsePayload
      { mtype := mtype, pattern := pat, channel := channel,
        data := (asyncRedisPublish b nspace p).2 } = some p := by
  show pickleLoads (pickleDumps p) = some p
  exact pickleLoads_pickleDumps p

/-- C4: `AsyncRedisDispatcher.initialize` has exactly two outcomes: on a
connection failure it only logs the error (in particular no `connect` task
is scheduled, so the consume loop is not started and no `connect` handler
runs), and on success its only action is scheduling the synthesized
`connect` trigger as a deferred task (nothing is run synchronously inside
`initialize`). -/
theorem asyncInitialize_outcomes :
    (∀ msg, asyncInitialize (ConnectOutcome.redisErr msg) =
      [InitAction.logConnError]) ∧
    asyncInitialize ConnectOutcome.ok = [InitAction.scheduleTask "connect"] :=
  ⟨fun _ => rfl, rfl⟩

/-- C5: `AsyncRedisDispatcher._listen` first subscribes to the channel named
after the dispatcher's namespace, and then yields every inbound broker
message, in arrival order, after that subscription. -/
theorem asyncListen_subscribes_then_yields (nspace : String) (ps : PubSub) :
    (asyncListen nspace ps).2.head? = some (RListenAction.subscribe nspace) ∧
    nspace ∈ (asyncListen nspace ps).1.channels ∧
    (asyncListen nspace ps).2.tail = ps.inbound.map RListenAction.yieldMsg := by
  refine ⟨rfl, ?_, rfl⟩
  simp [asyncListen, pubsubSubscribe]

/-- C8: `AsyncRedisDispatcher._publish` returns exactly the subscriber count
the broker reports for the target channel, and with zero live subscribers it
returns `Except.ok 0` — a legal result, not an error. -/
theorem asyncRedisPublish_subscriberCount (b : RedisBroker) (nspace : String)
    (p : PyVal) (hconn : b.connected = true) :
    (asyncRedisPublish b nspace p).1 = Except.ok (b.subscribers nspace) ∧
    (b.subscribers nspace = 0 →
      (asyncRedisPublish b nspace p).1 = Except.ok 0) := by
  constructor
  · simp [asyncRedisPublish, redisPublish, hconn]
  · intro h0
    simp [asyncRedisPublish, redisPublish, hconn, h0]

/-- Witness for C8: publishing to a namespace with zero live subscribers on
a live connection returns `0` and does not raise. -/
theorem asyncRedisPublish_subscriberCount_witness :
    (asyncRedisPublish { connected := true, subscribers := fun _ => 0 }
      "orders" PyVal.pyNone).1 = Except.ok 0 :=
  (asyncRedisPublish_subscriberCount
    { connected := true, subscribers := fun _ => 0 } "orders" PyVal.pyNone rfl).2 rfl

/-! ## Claim theorems: the blocking adapter -/

/-- C1 (code bug): the pooled channel acquired by `KombuDispatcher._publish`
is *not* released on every exit path.  On the normal path the channel count
returns to `0`, but when `producer.publish` raises, the exception propagates
past the `channel.release()` statement (which follows the `with` block
instead of sitting in a `finally`), leaving the acquired channel out of the
pool. -/
theorem kombuPublish_leaks_channel_on_raise :
    (kombuPublish false initKombuState).2.channelsOut = 0 ∧
    (kombuPublish true initKombuState).1 = Except.error "publish raised" ∧
    (kombuPublish true initKombuState).2.channelsOut = 1 :=
  ⟨rfl, rfl, rfl⟩

/-- C9: the outbound channel pool has the fixed capacity `10`, is created
lazily at most once (a second read of the `_channel_pool` property returns
the same pool and leaves the state unchanged; the created pool is stored),
and every `_publish` call acquires from the pool that the `_channel_pool`
property returns for the current state. -/
theorem channelPool_fixed_capacity_and_lazy :
    (channelPoolGet initKombuState).1.limit = 10 ∧
    (∀ s, channelPoolGet ((channelPoolGet s).2) = channelPoolGet s) ∧
    (∀ s, (channelPoolGet s).2.channelPool = some (channelPoolGet s).1) ∧
    (∀ raises s,
      ((kombuPublish raises s).2).channelPool = some (channelPoolGet s).1) := by
  refine ⟨rfl, fun s => ?_, fun s => ?_, fun raises s => ?_⟩
  · cases hs : s.channelPool <;> simp [channelPoolGet, hs]
  · cases hs : s.channelPool <;> simp [channelPoolGet, hs]
  · cases hs : s.channelPool <;>
      cases raises <;>
        simp [kombuPublish, channelPoolGet, producerPublish, hs]

/-- C10: `_exchange` and `_queue` never mutate the dispatcher's stored
option dictionaries: both calls return the configuration unchanged (all pops
happen on local copies), and consequently a repeated call yields the same
exchange and the same queue. -/
theorem kombu_options_not_mutated (cfg : KombuCfg) :
    (kombuExchange cfg).2 = cfg ∧
    kombuQueue cfg = Except.map (fun p => (p.1, cfg)) (kombuQueue cfg) ∧
    kombuExchange ((kombuExchange cfg).2) = kombuExchange cfg ∧
    (kombuQueue cfg).map (fun p => kombuQueue p.2) =
      (kombuQueue cfg).map (fun _ => kombuQueue cfg) := by
  refine ⟨rfl, ?_, rfl, ?_⟩
  · unfold kombuQueue
    cases h : extraAsList (dictPop (dictPop (dictCopy cfg.queue_options) "name"
        (OptVal.str cfg.nspace)).2 "extra_routing_keys" (OptVal.strs [])).1 <;>
      simp [Except.map, h]
  · unfold kombuQueue
    cases h : extraAsList (dictPop (dictPop (dictCopy cfg.queue_options) "name"
        (OptVal.str cfg.nspace)).2 "extra_routing_keys" (OptVal.strs [])).1 <;>
      simp [Except.map, h]

/-! ## Lemmas about queue construction -/

theorem dictPop_fst (d : PyDict) (k : String) (dflt : OptVal) :
    (dictPop d k dflt).1 = (dictLookup d k).getD dflt := by
  unfold dictPop
  cases dictLookup d k <;> simp

theorem map_snd_map_pair (e : KExchange) (ks : List OptVal) :
    (List.map (fun key => (e, key)) ks).map Prod.snd = ks := by
  induction ks with
  | nil => simp
  | cons a t ih => simp [ih]

theorem dictLookup_dictErase_ne (d : PyDict) (k k2 : String) (h : k ≠ k2) :
    dictLookup (dictErase d k) k2 = dictLookup d k2 := by
  induction d with
  | nil => simp [dictErase, dictLookup]
  | cons kv rest ih =>
    obtain ⟨k1, v⟩ := kv
    by_cases hk : k1 = k
    · subst hk
      simp [dictErase, dictLookup, List.filter_cons, h] at ih ⊢
      exact ih
    · by_cases hk2 : k1 = k2
      · subst hk2
        simp [dictErase, dictLookup, List.filter_cons, hk]
      · simp [dictErase, dictLookup, List.filter_cons, hk, hk2] at ih ⊢
        exact ih

/-- The successful run of `_queue`, as one equation: once
`extra_routing_keys` normalises to the list `extras`, the queue is built
from the routing keys `[queue name] ++ extras ++ [namespace if distinct]`,
each bound on `self._exchange()`. -/
theorem kombuQueue_eq_of_extras (cfg : KombuCfg) (extras : List OptVal)
    (hex : extraAsList (dictPop (dictPop (dictCopy cfg.queue_options) "name"
      (OptVal.str cfg.nspace)).2 "extra_routing_keys" (OptVal.strs [])).1 =
      some extras) :
    kombuQueue cfg = Except.ok
      ({ name := (dictPop (dictCopy cfg.queue_options) "name"
            (OptVal.str cfg.nspace)).1
       , bindings :=
          (([(dictPop (dictCopy cfg.queue_options) "name"
              (OptVal.str cfg.nspace)).1] ++ extras ++
            (if (dictPop (dictCopy cfg.queue_options) "name"
                  (OptVal.str cfg.nspace)).1 = OptVal.str cfg.nspace
             then [] else [OptVal.str cfg.nspace])).map
            (fun key => ((kombuExchange cfg).1, key)))
       , options := (dictPop (dictPop (dictCopy cfg.queue_options) "name"
            (OptVal.str cfg.nspace)).2 "extra_routing_keys"
            (OptVal.strs [])).2 }, cfg) := by
  unfold kombuQueue
  by_cases hname : (dictPop (dictCopy cfg.queue_options) "name"
      (OptVal.str cfg.nspace)).1 = OptVal.str cfg.nspace <;>
    simp [hex, hname]

/-- C7: for every well-typed `queue_options`, `_queue` succeeds and the
queue it builds carries a binding with the dispatcher's own namespace as
routing key (also when the queue name option differs from the namespace);
the queue name defaults to the namespace when no name option is given; all
bindings target `self._exchange()`; the routing keys are exactly the queue
name, then the normalised `extra_routing_keys` entries (a single string
treated as a one-element list), then the namespace when it differs from the
queue name; in particular every `extra_routing_keys` entry contributes its
binding. -/
theorem kombuQueue_namespace_binding (cfg : KombuCfg)
    (hn : dictLookup cfg.queue_options "name" = none ∨
      ∃ s, dictLookup cfg.queue_options "name" = some (OptVal.str s))
    (he : dictLookup cfg.queue_options "extra_routing_keys" = none ∨
      (∃ s, dictLookup cfg.queue_options "extra_routing_keys" =
        some (OptVal.str s)) ∨
      (∃ l, dictLookup cfg.queue_options "extra_routing_keys" =
        some (OptVal.strs l))) :
    ∃ q, kombuQueue cfg = Except.ok (q, cfg) ∧
      q.name = (dictPop (dictCopy cfg.queue_options) "name"
        (OptVal.str cfg.nspace)).1 ∧
      (dictLookup cfg.queue_options "name" = none →
        q.name = OptVal.str cfg.nspace) ∧
      OptVal.str cfg.nspace ∈ q.bindings.map Prod.snd ∧
      (∀ b ∈ q.bindings, b.1 = (kombuExchange cfg).1) ∧
      q.bindings.map Prod.snd =
        [q.name] ++
          (extraAsList (dictPop (dictPop (dictCopy cfg.queue_options) "name"
            (OptVal.str cfg.nspace)).2 "extra_routing_keys"
            (OptVal.strs [])).1).getD [] ++
          (if q.name = OptVal.str cfg.nspace then []
           else [OptVal.str cfg.nspace]) ∧
      (∀ s, dictLookup cfg.queue_options "extra_routing_keys" =
          some (OptVal.str s) → OptVal.str s ∈ q.bindings.map Prod.snd) ∧
      (∀ l, dictLookup cfg.queue_options "extra_routing_keys" =
          some (OptVal.strs l) →
        ∀ s ∈ l, OptVal.str s ∈ q.bindings.map Prod.snd) := by
  -- popping "name" does not disturb the "extra_routing_keys" entry
  have hre : dictLookup (dictPop (dictCopy cfg.queue_options) "name"
      (OptVal.str cfg.nspace)).2 "extra_routing_keys" =
      dictLookup cfg.queue_options "extra_routing_keys" := by
    rcases hn with hn | ⟨s, hn⟩ <;>
      simp [dictPop, dictCopy, hn,
        dictLookup_dictErase_ne cfg.queue_options "name" "extra_routing_keys"
          (by decide)]
  -- the normalised extra routing keys
  obtain ⟨extras, hex, hchar⟩ :
      ∃ extras, extraAsList (dictPop (dictPop (dictCopy cfg.queue_options)
        "name" (OptVal.str cfg.nspace)).2 "extra_routing_keys"
        (OptVal.strs [])).1 = some extras ∧
      ((dictLookup cfg.queue_options "extra_routing_keys" = none →
          extras = []) ∧
        (∀ s, dictLookup cfg.queue_options "extra_routing_keys" =
          some (OptVal.str s) → extras = [OptVal.str s]) ∧
        (∀ l, dictLookup cfg.queue_options "extra_routing_keys" =
          some (OptVal.strs l) → extras = l.map OptVal.str)) := by
    rcases he with he | ⟨s, he⟩ | ⟨l, he⟩
    · exact ⟨[], by simp [dictPop_fst, hre, he, extraAsList],
        by simp [he], by simp [he], by simp [he]⟩
    · exact ⟨[OptVal.str s], by simp [dictPop_fst, hre, he, extraAsList],
        by simp [he], by simp [he], by simp [he]⟩
    · exact ⟨l.map OptVal.str, by simp [dictPop_fst, hre, he, extraAsList],
        by simp [he], by simp [he], by simp [he]⟩
  have heq := kombuQueue_eq_of_extras cfg extras hex
  refine ⟨_, heq, rfl, ?_, ?_, ?_, ?_, ?_, ?_⟩
  · intro hnone
    simp [dictPop, dictCopy, hnone]
  · rw [map_snd_map_pair]
    by_cases hname : (dictPop (dictCopy cfg.queue_options) "name"
        (OptVal.str cfg.nspace)).1 = OptVal.str cfg.nspace <;>
      simp [hname]
  · intro b hb
    obtain ⟨key, hkmem, hkeq⟩ := List.mem_map.mp hb
    rw [← hkeq]
  · rw [map_snd_map_pair]
    simp [hex]
  · intro s hs
    have hx := hchar.2.1 s hs
    subst hx
    rw [map_snd_map_pair]
    simp
  · intro l hl s hsl
    have hx := hchar.2.2 l hl
    subst hx
    rw [map_snd_map_pair]
    have hmem : OptVal.str s ∈ List.map OptVal.str l :=
      List.mem_map_of_mem _ hsl
    simp [List.mem_append, hmem]

/-- Witness for C7: a configuration whose queue name differs from the
namespace and whose `extra_routing_keys` is a two-element list still yields
a queue bound to the namespace routing key. -/
theorem kombuQueue_namespace_binding_witness :
    ∃ q, kombuQueue ⟨"orders", [], [("name", OptVal.str "q1"),
        ("extra_routing_keys", OptVal.strs ["a", "b"])]⟩ =
      Except.ok (q, ⟨"orders", [], [("name", OptVal.str "q1"),
        ("extra_routing_keys", OptVal.strs ["a", "b"])]⟩) ∧
      OptVal.str "orders" ∈ q.bindings.map Prod.snd ∧
      OptVal.str "a" ∈ q.bindings.map Prod.snd := by
  obtain ⟨q, h1, _, _, h4, _, _, _, h8⟩ :=
    kombuQueue_namespace_binding
      ⟨"orders", [], [("name", OptVal.str "q1"),
        ("extra_routing_keys", OptVal.strs ["a", "b"])]⟩
      (Or.inr ⟨"q1", rfl⟩) (Or.inr (Or.inr ⟨["a", "b"], rfl⟩))
  exact ⟨q, h1, h4, h8 ["a", "b"] rfl "a" (by simp)⟩

/-! ## Lemmas about the blocking consume loop -/

theorem listenGo_pending_of_flag (flag : Nat → Bool) (hflag : ∀ k, flag k = true) :
    ∀ (phase : Bool) (k : Nat) (evs : List KEvent),
      (listenGo flag phase k evs).2 = ListenResult.pending := by
  intro phase k evs
  induction phase, k, evs using listenGo.induct flag with
  | case1 k evs hf ih => simp [listenGo, hf]; exact ih
  | case2 k evs hf => exact absurd (hflag k) hf
  | case3 k => simp [listenGo]
  | case4 k p rest ih => simp [listenGo]; exact ih
  | case5 k rest ih => simp [listenGo]; simpa [listenGo] using ih

theorem listenGo_stopped_of (flag : Nat → Bool) (j : Nat) :
    ∀ (phase : Bool) (k : Nat) (evs : List KEvent),
      (listenGo flag phase k evs).2 = ListenResult.stopped j → flag j = false := by
  intro phase k evs
  induction phase, k, evs using listenGo.induct flag with
  | case1 k evs hf ih => simp [listenGo, hf]; exact ih
  | case2 k evs hf =>
    intro h
    simp [listenGo, hf] at h
    subst h
    simpa using hf
  | case3 k => simp [listenGo]
  | case4 k p rest ih => simp [listenGo]; exact ih
  | case5 k rest ih => simp [listenGo]; simpa [listenGo] using ih

theorem listenGo_count_log (flag : Nat → Bool) (hflag : ∀ k, flag k = true) :
    ∀ (phase : Bool) (k : Nat) (evs : List KEvent),
      (listenGo flag phase k evs).1.count KAction.logErr = evs.count KEvent.err := by
  intro phase k evs
  induction phase, k, evs using listenGo.induct flag with
  | case1 k evs hf ih => simp [listenGo, hf]; exact ih
  | case2 k evs hf => exact absurd (hflag k) hf
  | case3 k => simp [listenGo]
  | case4 k p rest ih => simp [listenGo, List.count_cons]; exact ih
  | case5 k rest ih =>
    simp [listenGo, List.count_cons]
    simpa [listenGo] using ih

theorem listenGo_ackPrecedesYield (flag : Nat → Bool) :
    ∀ (phase : Bool) (k : Nat) (evs : List KEvent),
      ackPrecedesYield (listenGo flag phase k evs).1 = true := by
  intro phase k evs
  induction phase, k, evs using listenGo.induct flag with
  | case1 k evs hf ih => simp [listenGo, hf]; exact ih
  | case2 k evs hf => simp [listenGo, hf, ackPrecedesYield]
  | case3 k => simp [listenGo, ackPrecedesYield]
  | case4 k p rest ih => simp [listenGo, ackPrecedesYield]; exact ih
  | case5 k rest ih =>
    simp [listenGo, ackPrecedesYield]
    simpa [listenGo] using ih

/-- C2: the consume loop of `KombuDispatcher._listen` never terminates
because of an exception from the queue read: when the running-state flag
stays set, the generator's run never stops (every read exception is caught
and logged — one log record per exception — and the consumer is reopened),
and whenever a run does stop, it stopped at an outer running-state check
that found the flag cleared. -/
theorem kombuListen_only_flag_stops (flag : Nat → Bool) (evs : List KEvent) :
    ((∀ k, flag k = true) →
      (kombuListen flag evs).2 = ListenResult.pending ∧
      (kombuListen flag evs).1.count KAction.logErr = evs.count KEvent.err) ∧
    (∀ j, (kombuListen flag evs).2 = ListenResult.stopped j → flag j = false) := by
  constructor
  · intro hflag
    exact ⟨listenGo_pending_of_flag flag hflag true 0 evs,
           listenGo_count_log flag hflag true 0 evs⟩
  · intro j h
    exact listenGo_stopped_of flag j true 0 evs h

/-- Witness for C2: a run over one read exception followed by a message,
with the running flag always set, does not stop and logs once. -/
theorem kombuListen_only_flag_stops_witness :
    (kombuListen (fun _ => true) [KEvent.err, KEvent.msg [7]]).2 =
      ListenResult.pending ∧
    (kombuListen (fun _ => true) [KEvent.err, KEvent.msg [7]]).1.count
        KAction.logErr =
      ([KEvent.err, KEvent.msg [7]] : List KEvent).count KEvent.err :=
  (kombuListen_only_flag_stops (fun _ => true)
    [KEvent.err, KEvent.msg [7]]).1 (fun _ => rfl)

/-- C6: in every run of `KombuDispatcher._listen`, each yielded payload is
immediately preceded in the action trace by the acknowledgement of the same
message — the ack strictly precedes the hand-off to decode/dispatch. -/
theorem kombuListen_ack_before_yield (flag : Nat → Bool) (evs : List KEvent) :
    ackPrecedesYield (kombuListen flag evs).1 = true :=
  listenGo_ackPrecedesYield flag true 0 evs

end EventDispatcher
